import Mathlib

/-!
Shallow embedding of the Hauss compiler (tokenization.hpp, parser.hpp,
generation.hpp) and proofs about its behaviour.

Conventions of the embedding:
* C++ `std::optional<T>` becomes `Option T`.
* Fatal `exit(EXIT_FAILURE)` paths become `Except` errors carrying the message.
* `std::vector` becomes `List` with `push_back` as append at the end.
* Machine integers (`size_t`, `int`) become `Nat`; truncated subtraction only
  occurs where the source cannot underflow.
* The tokenizer and parser advance an index through the input; both are given
  a fuel argument that strictly decreases on every recursive call, so the
  functions compute by kernel reduction.  Fuel exhaustion is a distinguished
  error that never fires for adequate fuel.
-/

/-! ## Tokenizer (tokenization.hpp) -/

/-- Token kinds, mirroring `enum class TokenType`.  `let`, `if`, `else` are
Lean keywords, hence the trailing underscore used by the source for `if_`,
`else_` is extended to `let_`. -/
inductive TokenType where
  | exit
  | int_lit
  | semi
  | open_paren
  | close_paren
  | ident
  | let_
  | eq
  | plus
  | star
  | sub
  | div
  | open_curly
  | close_curly
  | if_
  | elif
  | else_
  | print
  | gt
  | ge
  | eq_eq
  | lt
  | le
  deriving DecidableEq, Repr, BEq

/-- Mirrors `to_string(TokenType)` from tokenization.hpp. -/
def TokenType.toMsg : TokenType → String
  | .exit => "`exit`"
  | .int_lit => "int literal"
  | .semi => "`;`"
  | .open_paren => "`(`"
  | .close_paren => "`)`"
  | .ident => "identifier"
  | .let_ => "`let`"
  | .eq => "`=`"
  | .plus => "`+`"
  | .star => "`*`"
  | .sub => "`-`"
  | .div => "`/`"
  | .open_curly => "`\x7b`"
  | .close_curly => "`\x7d`"
  | .if_ => "`if`"
  | .elif => "`elif`"
  | .else_ => "`else`"
  | .print => "`print`"
  | .gt => "`>`"
  | .ge => "`>=`"
  | .eq_eq => "`==`"
  | .lt => "`<`"
  | .le => "`<=`"

/-- Mirrors `bin_prec(TokenType)`: precedence of infix operators. -/
def bin_prec : TokenType → Option Nat
  | .sub | .plus | .gt | .ge | .lt | .le | .eq_eq => some 0
  | .div | .star => some 1
  | _ => none

/-- Mirrors `struct Token`: kind, 1-based source line, optional lexeme. -/
structure Token where
  type : TokenType
  line : Nat
  value : Option String := none
  deriving DecidableEq, Repr

/-- Mirrors C `isspace` for the characters the tokenizer can meet (the
source checks `\n` separately, before `isspace`). -/
def cIsSpace (c : Char) : Bool :=
  c == ' ' || c == '\t' || c == '\x0b' || c == '\x0c' || c == '\r' || c == '\n'

/-- The `/* ... */` skipping loop of `Tokenizer::tokenize`: drop characters
until the first `*/` (consuming it); an unterminated comment silently ends at
end of input.  The loop does not touch the line counter. -/
def skipBlockComment : List Char → List Char
  | [] => []
  | '*' :: '/' :: rest => rest
  | _ :: rest => skipBlockComment rest

/-- Whether the next character exists and is a digit (the `peek(1)` guard of
the negative-literal rule). -/
def digitNext : List Char → Bool
  | [] => false
  | c :: _ => c.isDigit

/-- Keyword resolution for an alphanumeric run (the `if`/`else if` chain over
`buf` in `Tokenizer::tokenize`). -/
def keywordToken (buf : String) (line : Nat) : Token :=
  if buf == "exit" then ⟨.exit, line, none⟩
  else if buf == "let" then ⟨.let_, line, none⟩
  else if buf == "if" then ⟨.if_, line, none⟩
  else if buf == "elif" then ⟨.elif, line, none⟩
  else if buf == "else" then ⟨.else_, line, none⟩
  else if buf == "print" then ⟨.print, line, none⟩
  else ⟨.ident, line, some buf⟩

/-- The main loop of `Tokenizer::tokenize`, one recursive step per loop
iteration.  Every iteration consumes at least one character, so fuel
`length + 1` suffices.  The error value is the message printed on the
invalid-token path. -/
def tokenizeAux : Nat → List Char → Nat → Except String (List Token)
  | 0, _, _ => .error "out of fuel"
  | _ + 1, [], _ => .ok []
  | fuel + 1, c :: rest, line_cnt =>
    if c.isAlpha then
      let buf := String.mk (c :: rest.takeWhile Char.isAlphanum)
      do
        let tks ← tokenizeAux fuel (rest.dropWhile Char.isAlphanum) line_cnt
        .ok (keywordToken buf line_cnt :: tks)
    else if c == '-' && digitNext rest then
      let buf := String.mk ('-' :: rest.takeWhile Char.isDigit)
      do
        let tks ← tokenizeAux fuel (rest.dropWhile Char.isDigit) line_cnt
        .ok (⟨.int_lit, line_cnt, some buf⟩ :: tks)
    else if c.isDigit then
      let buf := String.mk (c :: rest.takeWhile Char.isDigit)
      do
        let tks ← tokenizeAux fuel (rest.dropWhile Char.isDigit) line_cnt
        .ok (⟨.int_lit, line_cnt, some buf⟩ :: tks)
    else if c == '/' && rest.head? == some '/' then
      tokenizeAux fuel (rest.dropWhile (fun ch => ch != '\n')) line_cnt
    else if c == '/' && rest.head? == some '*' then
      tokenizeAux fuel (skipBlockComment (rest.drop 1)) line_cnt
    else if c == '(' then
      do let tks ← tokenizeAux fuel rest line_cnt; .ok (⟨.open_paren, line_cnt, none⟩ :: tks)
    else if c == ')' then
      do let tks ← tokenizeAux fuel rest line_cnt; .ok (⟨.close_paren, line_cnt, none⟩ :: tks)
    else if c == '\x7b' then
      do let tks ← tokenizeAux fuel rest line_cnt; .ok (⟨.open_curly, line_cnt, none⟩ :: tks)
    else if c == '\x7d' then
      do let tks ← tokenizeAux fuel rest line_cnt; .ok (⟨.close_curly, line_cnt, none⟩ :: tks)
    else if c == ';' then
      do let tks ← tokenizeAux fuel rest line_cnt; .ok (⟨.semi, line_cnt, none⟩ :: tks)
    else if c == '+' then
      do let tks ← tokenizeAux fuel rest line_cnt; .ok (⟨.plus, line_cnt, none⟩ :: tks)
    else if c == '*' then
      do let tks ← tokenizeAux fuel rest line_cnt; .ok (⟨.star, line_cnt, none⟩ :: tks)
    else if c == '-' then
      do let tks ← tokenizeAux fuel rest line_cnt; .ok (⟨.sub, line_cnt, none⟩ :: tks)
    else if c == '/' then
      do let tks ← tokenizeAux fuel rest line_cnt; .ok (⟨.div, line_cnt, none⟩ :: tks)
    else if c == '>' && rest.head? == some '=' then
      do let tks ← tokenizeAux fuel (rest.drop 1) line_cnt; .ok (⟨.ge, line_cnt, none⟩ :: tks)
    else if c == '<' && rest.head? == some '=' then
      do let tks ← tokenizeAux fuel (rest.drop 1) line_cnt; .ok (⟨.le, line_cnt, none⟩ :: tks)
    else if c == '>' then
      do let tks ← tokenizeAux fuel rest line_cnt; .ok (⟨.gt, line_cnt, none⟩ :: tks)
    else if c == '<' then
      do let tks ← tokenizeAux fuel rest line_cnt; .ok (⟨.lt, line_cnt, none⟩ :: tks)
    else if c == '=' && rest.head? == some '=' then
      do let tks ← tokenizeAux fuel (rest.drop 1) line_cnt; .ok (⟨.eq_eq, line_cnt, none⟩ :: tks)
    else if c == '=' then
      do let tks ← tokenizeAux fuel rest line_cnt; .ok (⟨.eq, line_cnt, none⟩ :: tks)
    else if c == '\n' then
      tokenizeAux fuel rest (line_cnt + 1)
    else if cIsSpace c then
      tokenizeAux fuel rest line_cnt
    else
      .error "Invalid token"

/-- Mirrors `Tokenizer::tokenize`, starting at line 1 with adequate fuel. -/
def tokenize (src : String) : Except String (List Token) :=
  tokenizeAux (src.length + 1) src.data 1

/-! ## AST (parser.hpp node structs)

The nine `NodeBinExpr*` structs all carry `lhs`/`rhs`; they are embedded as a
single constructor tagged by the operator.  The statement family uses its own
list and option types inside the mutual block so that every recursion below
is structural. -/

/-- The tag distinguishing the nine `NodeBinExpr*` variants. -/
inductive BinOp where
  | add
  | sub
  | multi
  | div
  | gt
  | ge
  | lt
  | le
  | eqEq
  deriving DecidableEq, Repr

mutual

/-- Mirrors `NodeTerm` with its four variants `NodeTermIntLit`,
`NodeTermIdent`, `NodeTermParen`, `NodeTermNeg`. -/
inductive NodeTerm where
  | intLit (int_lit : Token)
  | ident (ident : Token)
  | paren (expr : NodeExpr)
  | neg (term : NodeTerm)
  deriving DecidableEq, Repr

/-- Mirrors `NodeBinExpr`: one of the nine binary variants, each with
`lhs` and `rhs`. -/
inductive NodeBinExpr where
  | mk (op : BinOp) (lhs rhs : NodeExpr)
  deriving DecidableEq, Repr

/-- Mirrors `NodeExpr`: a term or a binary expression. -/
inductive NodeExpr where
  | term (t : NodeTerm)
  | binExpr (b : NodeBinExpr)
  deriving DecidableEq, Repr

end

mutual

/-- Mirrors `NodeStmt` with its six variants. -/
inductive NodeStmt where
  | exitStmt (expr : NodeExpr)
  | letStmt (ident : Token) (expr : NodeExpr)
  | scope (s : NodeScope)
  | ifStmt (expr : NodeExpr) (s : NodeScope) (pred : NodeIfPredOpt)
  | assign (ident : Token) (expr : NodeExpr)
  | print (expr : NodeExpr)
  deriving DecidableEq, Repr

/-- Mirrors `NodeScope`: an ordered list of statements. -/
inductive NodeScope where
  | mk (stmts : NodeStmtList)
  deriving DecidableEq, Repr

/-- Statement list (`std::vector<NodeStmt*>`), kept inside the mutual block
so recursion over it is structural. -/
inductive NodeStmtList where
  | nil
  | cons (head : NodeStmt) (tail : NodeStmtList)
  deriving DecidableEq, Repr

/-- Mirrors `std::optional<NodeIfPred*>`, kept inside the mutual block. -/
inductive NodeIfPredOpt where
  | noPred
  | somePred (p : NodeIfPred)
  deriving DecidableEq, Repr

/-- Mirrors `NodeIfPred`: an `elif` clause (with optional continuation) or an
`else` clause. -/
inductive NodeIfPred where
  | elifP (expr : NodeExpr) (s : NodeScope) (pred : NodeIfPredOpt)
  | elseP (s : NodeScope)
  deriving DecidableEq, Repr

end

/-- Projection of the statement list out of a scope. -/
def NodeScope.stmts : NodeScope → NodeStmtList
  | .mk l => l

/-- Mirrors `NodeProg`. -/
structure NodeProg where
  stmts : NodeStmtList
  deriving DecidableEq, Repr

/-! ## Parser (parser.hpp)

The parser state is the (immutable) token vector plus the index `m_index`.
Every function returns the value together with the updated index, or a parse
error.  The source's `error_expected` dereferences `peek(-1)` — when
`m_index` is 0 that optional is empty and `.value()` aborts the process
before anything is printed; this is modelled by a `none` line in the error
value. -/

/-- Parse-error value: the `error_expected` message together with
`peek(-1).line`.  A `none` line means `peek(-1)` had no value, i.e. the
process dies from `std::bad_optional_access` before the message is printed. -/
inductive PErr where
  | expected (msg : String) (line : Option Nat)
  | fuel
  deriving DecidableEq, Repr

/-- Mirrors `Parser::peek(offset)` for non-negative offsets. -/
def peekT (ts : List Token) (idx : Nat) : Option Token :=
  ts.get? idx

/-- Kind of the token at `idx`, used for the lookahead guards. -/
def typeAt (ts : List Token) (idx : Nat) : Option TokenType :=
  (peekT ts idx).map Token.type

/-- Mirrors `Parser::error_expected`: the reported line is
`peek(-1).value().line`.  For `m_index = 0` the `size_t` index `m_index - 1`
wraps around, `peek(-1)` is empty and `.value()` aborts: modelled by `none`. -/
def error_expected (ts : List Token) (idx : Nat) (msg : String) : PErr :=
  .expected msg (if idx = 0 then none else (peekT ts (idx - 1)).map Token.line)

/-- Mirrors `Parser::try_consume(type)`. -/
def try_consume (ts : List Token) (idx : Nat) (ty : TokenType) :
    Option (Token × Nat) :=
  match peekT ts idx with
  | some t => if t.type == ty then some (t, idx + 1) else none
  | none => none

/-- Mirrors `Parser::try_consume_err(type)`. -/
def try_consume_err (ts : List Token) (idx : Nat) (ty : TokenType) :
    Except PErr (Token × Nat) :=
  match try_consume ts idx ty with
  | some r => .ok r
  | none => .error (error_expected ts idx ty.toMsg)

/-- Builds the `NodeBinExpr` for an operator token, mirroring the
`if`/`else if` chain at the end of `Parser::parse_expr`.  The chain has no
final `else`; tokens without a precedence never reach it, so the wildcard
case is unreachable. -/
def mkBinExpr (ty : TokenType) (lhs rhs : NodeExpr) : NodeBinExpr :=
  match ty with
  | .gt => .mk .gt lhs rhs
  | .ge => .mk .ge lhs rhs
  | .lt => .mk .lt lhs rhs
  | .le => .mk .le lhs rhs
  | .eq_eq => .mk .eqEq lhs rhs
  | .plus => .mk .add lhs rhs
  | .star => .mk .multi lhs rhs
  | .sub => .mk .sub lhs rhs
  | .div => .mk .div lhs rhs
  | _ => .mk .add lhs rhs

mutual

/-- Mirrors `Parser::parse_term`. -/
def parse_term (fuel : Nat) (ts : List Token) (idx : Nat) :
    Except PErr (Option NodeTerm × Nat) :=
  match fuel with
  | 0 => .error .fuel
  | f + 1 =>
    match try_consume ts idx .int_lit with
    | some (tok, idx1) => .ok (some (.intLit tok), idx1)
    | none =>
    match try_consume ts idx .ident with
    | some (tok, idx1) => .ok (some (.ident tok), idx1)
    | none =>
    match try_consume ts idx .open_paren with
    | some (_, idx1) => do
        let (e?, idx2) ← parse_expr f ts 0 idx1
        match e? with
        | none => .error (error_expected ts idx2 "expression")
        | some e => do
            let (_, idx3) ← try_consume_err ts idx2 .close_paren
            .ok (some (.paren e), idx3)
    | none =>
    match try_consume ts idx .sub with
    | some (_, idx1) => do
        let (t?, idx2) ← parse_term f ts idx1
        match t? with
        | none => .error (error_expected ts idx2 "term after unary '-'")
        | some t => .ok (some (.neg t), idx2)
    | none => .ok (none, idx)
termination_by structural fuel

/-- Mirrors `Parser::parse_expr(min_prec)` up to its precedence-climbing
loop, which is `parse_expr_loop`. -/
def parse_expr (fuel : Nat) (ts : List Token) (minPrec : Nat) (idx : Nat) :
    Except PErr (Option NodeExpr × Nat) :=
  match fuel with
  | 0 => .error .fuel
  | f + 1 => do
    let (t?, idx1) ← parse_term f ts idx
    match t? with
    | none => .ok (none, idx1)
    | some t => parse_expr_loop f ts minPrec (.term t) idx1
termination_by structural fuel

/-- The `while (true)` loop of `Parser::parse_expr`: as long as the next
token is a binary operator of precedence at least `minPrec`, consume it,
parse the right operand with `min_prec = prec + 1`, and fold it into the
left operand. -/
def parse_expr_loop (fuel : Nat) (ts : List Token) (minPrec : Nat)
    (lhs : NodeExpr) (idx : Nat) : Except PErr (Option NodeExpr × Nat) :=
  match fuel with
  | 0 => .error .fuel
  | f + 1 =>
    match peekT ts idx with
    | none => .ok (some lhs, idx)
    | some tok =>
      match bin_prec tok.type with
      | none => .ok (some lhs, idx)
      | some prec =>
        if prec < minPrec then .ok (some lhs, idx)
        else do
          let (rhs?, idx2) ← parse_expr f ts (prec + 1) (idx + 1)
          match rhs? with
          | none => .error (error_expected ts idx2 "expression")
          | some rhs =>
              parse_expr_loop f ts minPrec (.binExpr (mkBinExpr tok.type lhs rhs)) idx2
termination_by structural fuel

/-- Mirrors `Parser::parse_scope`. -/
def parse_scope (fuel : Nat) (ts : List Token) (idx : Nat) :
    Except PErr (Option NodeScope × Nat) :=
  match fuel with
  | 0 => .error .fuel
  | f + 1 =>
    match try_consume ts idx .open_curly with
    | none => .ok (none, idx)
    | some (_, idx1) => do
        let (stmts, idx2) ← parse_stmts f ts idx1
        let (_, idx3) ← try_consume_err ts idx2 .close_curly
        .ok (some (.mk stmts), idx3)
termination_by structural fuel

/-- The `while (auto stmt = parse_stmt())` accumulation loop shared by
`parse_scope` and `parse_prog`. -/
def parse_stmts (fuel : Nat) (ts : List Token) (idx : Nat) :
    Except PErr (NodeStmtList × Nat) :=
  match fuel with
  | 0 => .error .fuel
  | f + 1 => do
    let (s?, idx1) ← parse_stmt f ts idx
    match s? with
    | none => .ok (.nil, idx1)
    | some s => do
        let (rest, idx2) ← parse_stmts f ts idx1
        .ok (.cons s rest, idx2)
termination_by structural fuel

/-- Mirrors `Parser::parse_if_pred`. -/
def parse_if_pred (fuel : Nat) (ts : List Token) (idx : Nat) :
    Except PErr (NodeIfPredOpt × Nat) :=
  match fuel with
  | 0 => .error .fuel
  | f + 1 =>
    match try_consume ts idx .elif with
    | some (_, idx1) => do
        let (_, idx2) ← try_consume_err ts idx1 .open_paren
        let (e?, idx3) ← parse_expr f ts 0 idx2
        match e? with
        | none => .error (error_expected ts idx3 "expression")
        | some e => do
            let (_, idx4) ← try_consume_err ts idx3 .close_paren
            let (sc?, idx5) ← parse_scope f ts idx4
            match sc? with
            | none => .error (error_expected ts idx5 "scope")
            | some sc => do
                let (pred, idx6) ← parse_if_pred f ts idx5
                .ok (.somePred (.elifP e sc pred), idx6)
    | none =>
    match try_consume ts idx .else_ with
    | some (_, idx1) => do
        let (sc?, idx2) ← parse_scope f ts idx1
        match sc? with
        | none => .error (error_expected ts idx2 "scope")
        | some sc => .ok (.somePred (.elseP sc), idx2)
    | none => .ok (.noPred, idx)
termination_by structural fuel

/-- Mirrors `Parser::parse_stmt`, with the source's branch order:
`exit (`, `let ident =`, `ident =`, `{`, `if`, `print (`.  The inner
`match`es that re-fetch a guarded token cannot fail; their `none` arms
return "no statement" and are unreachable. -/
def parse_stmt (fuel : Nat) (ts : List Token) (idx : Nat) :
    Except PErr (Option NodeStmt × Nat) :=
  match fuel with
  | 0 => .error .fuel
  | f + 1 =>
    if typeAt ts idx == some .exit && typeAt ts (idx + 1) == some .open_paren then do
      let (e?, idx2) ← parse_expr f ts 0 (idx + 2)
      match e? with
      | none => .error (error_expected ts idx2 "expression")
      | some e => do
          let (_, idx3) ← try_consume_err ts idx2 .close_paren
          let (_, idx4) ← try_consume_err ts idx3 .semi
          .ok (some (.exitStmt e), idx4)
    else if typeAt ts idx == some .let_ && typeAt ts (idx + 1) == some .ident &&
        typeAt ts (idx + 2) == some .eq then
      match peekT ts (idx + 1) with
      | none => .ok (none, idx)
      | some identTok => do
          let (e?, idx2) ← parse_expr f ts 0 (idx + 3)
          match e? with
          | none => .error (error_expected ts idx2 "expression")
          | some e => do
              let (_, idx3) ← try_consume_err ts idx2 .semi
              .ok (some (.letStmt identTok e), idx3)
    else if typeAt ts idx == some .ident && typeAt ts (idx + 1) == some .eq then
      match peekT ts idx with
      | none => .ok (none, idx)
      | some identTok => do
          let (e?, idx2) ← parse_expr f ts 0 (idx + 2)
          match e? with
          | none => .error (error_expected ts idx2 "expression")
          | some e => do
              let (_, idx3) ← try_consume_err ts idx2 .semi
              .ok (some (.assign identTok e), idx3)
    else if typeAt ts idx == some .open_curly then do
      let (sc?, idx1) ← parse_scope f ts idx
      match sc? with
      | none => .error (error_expected ts idx1 "expression")
      | some sc => .ok (some (.scope sc), idx1)
    else
      match try_consume ts idx .if_ with
      | some (_, idx1) => do
          let (_, idx2) ← try_consume_err ts idx1 .open_paren
          let (e?, idx3) ← parse_expr f ts 0 idx2
          match e? with
          | none => .error (error_expected ts idx3 "expression")
          | some e => do
              let (_, idx4) ← try_consume_err ts idx3 .close_paren
              let (sc?, idx5) ← parse_scope f ts idx4
              match sc? with
              | none => .error (error_expected ts idx5 "scope")
              | some sc => do
                  let (pred, idx6) ← parse_if_pred f ts idx5
                  .ok (some (.ifStmt e sc pred), idx6)
      | none =>
        if typeAt ts idx == some .print && typeAt ts (idx + 1) == some .open_paren then do
          let (e?, idx2) ← parse_expr f ts 0 (idx + 2)
          match e? with
          | none => .error (error_expected ts idx2 "expression")
          | some e => do
              let (_, idx3) ← try_consume_err ts idx2 .close_paren
              let (_, idx4) ← try_consume_err ts idx3 .semi
              .ok (some (.print e), idx4)
        else .ok (none, idx)
termination_by structural fuel

/-- Mirrors `Parser::parse_prog`: statements until the tokens run out; a
position where no statement starts raises `error_expected("statement")`. -/
def parse_prog (fuel : Nat) (ts : List Token) (idx : Nat) :
    Except PErr (NodeStmtList × Nat) :=
  match fuel with
  | 0 => .error .fuel
  | f + 1 =>
    match peekT ts idx with
    | none => .ok (.nil, idx)
    | some _ => do
        let (s?, idx1) ← parse_stmt f ts idx
        match s? with
        | none => .error (error_expected ts idx1 "statement")
        | some s => do
            let (rest, idx2) ← parse_prog f ts idx1
            .ok (.cons s rest, idx2)
termination_by structural fuel

end

/-- Fuel that is adequate for any token sequence: the recursion depth of the
parser grows by at most a handful of levels per consumed token. -/
def parserFuel (ts : List Token) : Nat :=
  8 * ts.length + 16

/-- Whole-input parse, mirroring the `Parser(tokens).parse_prog()` call in
the driver. -/
def runParser (ts : List Token) : Except PErr NodeProg := do
  let (stmts, _) ← parse_prog (parserFuel ts) ts 0
  .ok ⟨stmts⟩

/-! ## Code generator (generation.hpp) -/

/-- Operand of an emitted `push`: a register name, or the
`QWORD [rsp + offset]` slot reference built for identifier reads. -/
inductive Operand where
  | reg (r : String)
  | qwordRsp (off : Nat)
  deriving DecidableEq, Repr

/-- One emitted line of assembly.  The `print_int` routine is a single
constructor since the generator pastes it in as one raw string. -/
inductive Instr where
  | globalStart
  | movRaxLit (v : String)
  | push (src : Operand)
  | pop (reg : String)
  | negRax
  | subRaxRbx
  | addRaxRbx
  | mulRbx
  | divRbx
  | cmpRaxRbx
  | setg
  | setge
  | setl
  | setle
  | sete
  | movzxRaxAl
  | movRax60
  | movRdi0
  | syscall
  | comment (s : String)
  | testRaxRax
  | jz (label : String)
  | jmp (label : String)
  | labelDef (label : String)
  | movRspOffRax (off : Nat)
  | callPrintInt
  | addRsp (k : Nat)
  | printIntRoutine
  deriving DecidableEq, Repr

/-- Mirrors `Generator::Var`. -/
structure Var where
  name : String
  stack_loc : Nat
  deriving DecidableEq, Repr

/-- The mutable state of `Generator`: output buffer, virtual stack size,
variable table, scope stack, label counter.  Vectors keep their source
orientation: `push_back` appends on the right. -/
structure GenState where
  output : List Instr
  stack_size : Nat
  vars : List Var
  scopes : List Nat
  label_count : Nat
  deriving DecidableEq, Repr

/-- Semantic errors of the generator, each carrying the offending name. -/
inductive GenErr where
  | undeclared (name : String)
  | alreadyUsed (name : String)
  deriving DecidableEq, Repr

/-- Appending one line to `m_output`. -/
def emit (i : Instr) (st : GenState) : GenState :=
  { st with output := st.output ++ [i] }

/-- Mirrors `Generator::push`: emit `push` and increment the virtual stack
size. -/
def GenState.push (src : Operand) (st : GenState) : GenState :=
  { st with output := st.output ++ [.push src], stack_size := st.stack_size + 1 }

/-- Mirrors `Generator::pop`: emit `pop` and decrement the virtual stack
size (the source decrements a `size_t`; no reachable call underflows). -/
def GenState.pop (reg : String) (st : GenState) : GenState :=
  { st with output := st.output ++ [.pop reg], stack_size := st.stack_size - 1 }

/-- Mirrors `Generator::begin_scope`: record the variable-table length. -/
def begin_scope (st : GenState) : GenState :=
  { st with scopes := st.scopes ++ [st.vars.length] }

/-- Mirrors `Generator::end_scope`: `pop_count = vars.size() - scopes.back()`,
emit one `add rsp, pop_count*8`, shrink the virtual stack, pop `pop_count`
variables, drop the scope record.  The source calls `.back()` on a nonempty
vector; `end_scope` is only reached right after `begin_scope`, so the `none`
arm is unreachable and returns the state unchanged. -/
def end_scope (st : GenState) : GenState :=
  match st.scopes.getLast? with
  | none => st
  | some recorded =>
      let popCount := st.vars.length - recorded
      { st with
        output := st.output ++ [.addRsp (popCount * 8)],
        stack_size := st.stack_size - popCount,
        vars := st.vars.take recorded,
        scopes := st.scopes.dropLast }

/-- Mirrors `Generator::create_label`: `labelN` with a monotone counter. -/
def create_label (st : GenState) : String × GenState :=
  ("label" ++ toString st.label_count, { st with label_count := st.label_count + 1 })

/-- The `token.value.value()` reads of the generator.  The parser only
builds `ident`/`int_lit` nodes from tokens that carry a lexeme, so the
default is never used on parser output. -/
def tokVal (t : Token) : String :=
  t.value.getD ""

mutual

/-- Mirrors `Generator::gen_term` (the `TermVisitor`). -/
def gen_term : NodeTerm → GenState → Except GenErr GenState
  | .intLit tok, st =>
      .ok (GenState.push (.reg "rax") (emit (.movRaxLit (tokVal tok)) st))
  | .ident tok, st =>
      match st.vars.find? (fun v => v.name == tokVal tok) with
      | none => .error (.undeclared (tokVal tok))
      | some v =>
          .ok (GenState.push (.qwordRsp ((st.stack_size - v.stack_loc - 1) * 8)) st)
  | .neg t, st => do
      let st1 ← gen_term t st
      .ok (GenState.push (.reg "rax") (emit .negRax (GenState.pop "rax" st1)))
  | .paren e, st => gen_expr e st
termination_by structural t => t

/-- Mirrors `Generator::gen_bin_expr` (the `BinExprVisitor`): arithmetic
operators evaluate `rhs` then `lhs` and pop `rax`, `rbx`; comparisons
evaluate `lhs` then `rhs`, pop `rbx`, `rax`, and emit
`cmp` / `setCC al` / `movzx rax, al`. -/
def gen_bin_expr : NodeBinExpr → GenState → Except GenErr GenState
  | .mk .sub lhs rhs, st => do
      let st1 ← gen_expr rhs st
      let st2 ← gen_expr lhs st1
      .ok (GenState.push (.reg "rax")
        (emit .subRaxRbx (GenState.pop "rbx" (GenState.pop "rax" st2))))
  | .mk .add lhs rhs, st => do
      let st1 ← gen_expr rhs st
      let st2 ← gen_expr lhs st1
      .ok (GenState.push (.reg "rax")
        (emit .addRaxRbx (GenState.pop "rbx" (GenState.pop "rax" st2))))
  | .mk .multi lhs rhs, st => do
      let st1 ← gen_expr rhs st
      let st2 ← gen_expr lhs st1
      .ok (GenState.push (.reg "rax")
        (emit .mulRbx (GenState.pop "rbx" (GenState.pop "rax" st2))))
  | .mk .div lhs rhs, st => do
      let st1 ← gen_expr rhs st
      let st2 ← gen_expr lhs st1
      .ok (GenState.push (.reg "rax")
        (emit .divRbx (GenState.pop "rbx" (GenState.pop "rax" st2))))
  | .mk .gt lhs rhs, st => do
      let st1 ← gen_expr lhs st
      let st2 ← gen_expr rhs st1
      .ok (GenState.push (.reg "rax")
        (emit .movzxRaxAl (emit .setg (emit .cmpRaxRbx
          (GenState.pop "rax" (GenState.pop "rbx" st2))))))
  | .mk .ge lhs rhs, st => do
      let st1 ← gen_expr lhs st
      let st2 ← gen_expr rhs st1
      .ok (GenState.push (.reg "rax")
        (emit .movzxRaxAl (emit .setge (emit .cmpRaxRbx
          (GenState.pop "rax" (GenState.pop "rbx" st2))))))
  | .mk .lt lhs rhs, st => do
      let st1 ← gen_expr lhs st
      let st2 ← gen_expr rhs st1
      .ok (GenState.push (.reg "rax")
        (emit .movzxRaxAl (emit .setl (emit .cmpRaxRbx
          (GenState.pop "rax" (GenState.pop "rbx" st2))))))
  | .mk .le lhs rhs, st => do
      let st1 ← gen_expr lhs st
      let st2 ← gen_expr rhs st1
      .ok (GenState.push (.reg "rax")
        (emit .movzxRaxAl (emit .setle (emit .cmpRaxRbx
          (GenState.pop "rax" (GenState.pop "rbx" st2))))))
  | .mk .eqEq lhs rhs, st => do
      let st1 ← gen_expr lhs st
      let st2 ← gen_expr rhs st1
      .ok (GenState.push (.reg "rax")
        (emit .movzxRaxAl (emit .sete (emit .cmpRaxRbx
          (GenState.pop "rax" (GenState.pop "rbx" st2))))))
termination_by structural b => b

/-- Mirrors `Generator::gen_expr` (the `ExprVisitor`). -/
def gen_expr : NodeExpr → GenState → Except GenErr GenState
  | .term t, st => gen_term t st
  | .binExpr b, st => gen_bin_expr b st
termination_by structural e => e

end

mutual

/-- Mirrors `Generator::gen_stmt` (the `StmtVisitor`). -/
def gen_stmt : NodeStmt → GenState → Except GenErr GenState
  | .exitStmt e, st => do
      let st1 ← gen_expr e st
      .ok (emit .syscall (GenState.pop "rdi" (emit .movRax60 st1)))
  | .letStmt identTok e, st =>
      match st.vars.find? (fun v => v.name == tokVal identTok) with
      | some _ => .error (.alreadyUsed (tokVal identTok))
      | none =>
          gen_expr e
            { st with vars := st.vars ++ [⟨tokVal identTok, st.stack_size⟩] }
  | .assign identTok e, st =>
      match st.vars.find? (fun v => v.name == tokVal identTok) with
      | none => .error (.undeclared (tokVal identTok))
      | some v => do
          let st1 ← gen_expr e st
          let st2 := GenState.pop "rax" st1
          .ok (emit (.movRspOffRax ((st2.stack_size - v.stack_loc - 1) * 8)) st2)
  | .scope sc, st => do
      let st1 ← gen_scope sc (emit (.comment ";; scope") st)
      .ok (emit (.comment ";; /scope") st1)
  | .ifStmt e sc pred, st => do
      let st1 ← gen_expr e st
      let st2 := GenState.pop "rax" st1
      let lab := create_label st2
      let st4 := emit (.jz lab.1) (emit .testRaxRax lab.2)
      let st5 ← gen_scope sc st4
      match pred with
      | .noPred => .ok (emit (.labelDef lab.1) st5)
      | .somePred p => do
          let endLab := create_label st5
          let st7 := emit (.labelDef lab.1) (emit (.jmp endLab.1) endLab.2)
          let st8 ← gen_if_pred p endLab.1 st7
          .ok (emit (.labelDef endLab.1) st8)
  | .print e, st => do
      let st1 ← gen_expr e st
      .ok (emit .callPrintInt (GenState.pop "rdi" st1))
termination_by structural s => s

/-- Mirrors `Generator::gen_scope`: begin the scope, generate the
statements, end the scope. -/
def gen_scope : NodeScope → GenState → Except GenErr GenState
  | .mk stmts, st => do
      let stB ← gen_stmts stmts (begin_scope st)
      .ok (end_scope stB)
termination_by structural sc => sc

/-- The statement loop of `gen_scope` / `gen_prog`. -/
def gen_stmts : NodeStmtList → GenState → Except GenErr GenState
  | .nil, st => .ok st
  | .cons s rest, st => do
      let st1 ← gen_stmt s st
      gen_stmts rest st1
termination_by structural l => l

/-- Mirrors `Generator::gen_if_pred` (the `PredVisitor`).  Note: in the
`elif` arm the skip label is emitted only when a further predicate follows;
a final `elif` leaves its `jz` target undefined. -/
def gen_if_pred : NodeIfPred → String → GenState → Except GenErr GenState
  | .elifP e sc pred, endLabel, st => do
      let st1 ← gen_expr e (emit (.comment ";; elif") st)
      let st2 := GenState.pop "rax" st1
      let lab := create_label st2
      let st4 := emit (.jz lab.1) (emit .testRaxRax lab.2)
      let st5 ← gen_scope sc st4
      let st6 := emit (.jmp endLabel) st5
      match pred with
      | .noPred => .ok st6
      | .somePred p => gen_if_pred p endLabel (emit (.labelDef lab.1) st6)
  | .elseP sc, _, st => gen_scope sc st
termination_by structural p => p

end

/-- The generator state right after `m_output << "global _start\n_start:\n"`
in `gen_prog`: all counters fresh. -/
def initGenState : GenState :=
  ⟨[.globalStart], 0, [], [], 0⟩

/-- Mirrors `Generator::gen_prog`: prologue, the top-level statements, the
default `exit(0)` epilogue, then the pasted `print_int` routine. -/
def gen_prog (prog : NodeProg) : Except GenErr (List Instr) := do
  let st1 ← gen_stmts prog.stmts initGenState
  .ok (emit .printIntRoutine (emit .syscall (emit .movRdi0 (emit .movRax60 st1)))).output

/-! ## Whole-compiler pipeline (main.cpp glue, out of scope per the spec:
source string in, assembly out). -/

/-- Error of any stage of the pipeline. -/
inductive CompErr where
  | lexErr (msg : String)
  | parseErr (e : PErr)
  | genErr (e : GenErr)
  deriving DecidableEq, Repr

/-- Tokenize, parse, generate. -/
def compile (src : String) : Except CompErr (List Instr) := do
  let ts ← (tokenize src).mapError CompErr.lexErr
  let prog ← (runParser ts).mapError CompErr.parseErr
  (gen_prog prog).mapError CompErr.genErr

/-- Frame effect of one expression: the virtual stack grows by exactly one,
the variable table and the scope stack are untouched. -/
def ExprEff (st st' : GenState) : Prop :=
  st'.stack_size = st.stack_size + 1 ∧ st'.vars = st.vars ∧ st'.scopes = st.scopes

/-- Number of variables a statement declares directly (a `let` declares one;
declarations inside a nested scope are popped by that scope's own exit). -/
def letCount : NodeStmt → Nat
  | .letStmt _ _ => 1
  | _ => 0

/-- Sum of `letCount` over a statement list. -/
def letCountList : NodeStmtList → Nat
  | .nil => 0
  | .cons s rest => letCount s + letCountList rest

/-- Frame effect of statements: `n` new variables are appended to the table,
the virtual stack grows by exactly `n`, and the scope stack is restored. -/
def StmtEff (n : Nat) (st st' : GenState) : Prop :=
  ∃ Δ : List Var, st'.vars = st.vars ++ Δ ∧ Δ.length = n ∧
    st'.stack_size = st.stack_size + n ∧ st'.scopes = st.scopes

/-! ## Success of expression generation when all identifiers are declared -/

mutual

/-- All identifiers of a term are present in the variable table. -/
def termIdentsOk : NodeTerm → List Var → Bool
  | .intLit _, _ => true
  | .ident tok, vars => (vars.find? (fun v => v.name == tokVal tok)).isSome
  | .paren e, vars => exprIdentsOk e vars
  | .neg t, vars => termIdentsOk t vars
termination_by structural t => t

/-- All identifiers of a binary expression are present in the table. -/
def binIdentsOk : NodeBinExpr → List Var → Bool
  | .mk _ lhs rhs, vars => exprIdentsOk lhs vars && exprIdentsOk rhs vars
termination_by structural b => b

/-- All identifiers of an expression are present in the table. -/
def exprIdentsOk : NodeExpr → List Var → Bool
  | .term t, vars => termIdentsOk t vars
  | .binExpr b, vars => binIdentsOk b vars
termination_by structural e => e

end

/-! ## Label bookkeeping for the generated assembly -/

/-- Labels referenced by `jz` or `jmp` instructions. -/
def referencedLabels (out : List Instr) : List String :=
  out.filterMap fun i =>
    match i with
    | .jz l => some l
    | .jmp l => some l
    | _ => none

/-- Labels defined by `labelN:` lines. -/
def definedLabels (out : List Instr) : List String :=
  out.filterMap fun i =>
    match i with
    | .labelDef l => some l
    | _ => none

/-! ## Concrete programs used as witnesses and counterexamples -/

/-- The scenario-3 program of the spec. -/
def c4src : String := "let a = 10; \x7b let a = 1; \x7d exit(a);"

/-- An `if` whose chain ends in an `elif` with no `else`. -/
def c3src : String := "if (1) \x7b \x7d elif (1) \x7b \x7d"

/-- The assembly generated for `c3src` (compilation succeeds). -/
def c3out : List Instr := (compile c3src).toOption.getD []

/-- First component of a generator result, for stating counterexamples. -/
def stackAfter : Except GenErr GenState → Option Nat
  | .ok st => some st.stack_size
  | .error _ => none

/-- `let x = 0;` as an AST. -/
def c2prog : NodeStmtList :=
  .cons (.letStmt ⟨.ident, 1, some "x"⟩ (.term (.intLit ⟨.int_lit, 1, some "0"⟩))) .nil

/-- `let x = 2; exit(x);` as an AST. -/
def c2wStmts : NodeStmtList :=
  .cons (.letStmt ⟨.ident, 1, some "x"⟩ (.term (.intLit ⟨.int_lit, 1, some "2"⟩)))
    (.cons (.exitStmt (.term (.ident ⟨.ident, 1, some "x"⟩))) .nil)

/-- The generator state after `c2wStmts`. -/
def c2wState : GenState :=
  (gen_stmts c2wStmts initGenState).toOption.getD initGenState

/-- The `Instr` an arithmetic operator emits between the pops and the final
push, when the operator is arithmetic. -/
def arithInstr : BinOp → Option Instr
  | .sub => some .subRaxRbx
  | .add => some .addRaxRbx
  | .multi => some .mulRbx
  | .div => some .divRbx
  | _ => none

/-- The `setCC al` instruction a comparison operator emits, when the
operator is a comparison. -/
def cmpSetInstr : BinOp → Option Instr
  | .gt => some .setg
  | .ge => some .setge
  | .lt => some .setl
  | .le => some .setle
  | .eqEq => some .sete
  | _ => none

/-- What C6 asserts of a successful `gen_bin_expr` run: arithmetic
operators evaluate `rhs` then `lhs` and append
`pop rax; pop rbx; <op>; push rax`; comparison operators evaluate `lhs`
then `rhs` and append
`pop rbx; pop rax; cmp rax, rbx; set<cc> al; movzx rax, al; push rax`,
whose result is 0 or 1. -/
def C6Spec (op : BinOp) (lhs rhs : NodeExpr) (st st' : GenState) : Prop :=
  (∀ i, arithInstr op = some i →
    ∃ st1 st2, gen_expr rhs st = .ok st1 ∧ gen_expr lhs st1 = .ok st2 ∧
      st'.output = st2.output ++ [.pop "rax", .pop "rbx", i, .push (.reg "rax")]) ∧
  (∀ i, cmpSetInstr op = some i →
    ∃ st1 st2, gen_expr lhs st = .ok st1 ∧ gen_expr rhs st1 = .ok st2 ∧
      st'.output = st2.output ++
        [.pop "rbx", .pop "rax", .cmpRaxRbx, i, .movzxRaxAl, .push (.reg "rax")])

/-- The expression `1` used by the C6 witness. -/
def c6wExpr : NodeExpr := .term (.intLit ⟨.int_lit, 1, some "1"⟩)

/-- The fresh generator state used by the C6 witness. -/
def c6wSt : GenState := ⟨[], 0, [], [], 0⟩

/-- The state `gen_bin_expr` produces for `1 + 1` from `c6wSt`. -/
def c6wRes : GenState :=
  (gen_bin_expr (.mk .add c6wExpr c6wExpr) c6wSt).toOption.getD c6wSt

/-- What C9 asserts of a successful `gen_scope` run: the table, scope stack
and virtual stack size return to their entry values (entries below the
recorded length unchanged), and the exit emits a single
`add rsp, pop_count*8` with `pop_count` the number of variables the scope
declared. -/
def ScopeFrameSpec (sc : NodeScope) (st st' : GenState) : Prop :=
  st'.vars = st.vars ∧ st'.scopes = st.scopes ∧
    st'.stack_size = st.stack_size ∧
    ∃ stB Δ, gen_stmts sc.stmts (begin_scope st) = .ok stB ∧
      stB.vars = st.vars ++ Δ ∧ Δ.length = letCountList sc.stmts ∧
      st'.output = stB.output ++ [.addRsp (Δ.length * 8)] ∧
      stB.stack_size = st.stack_size + Δ.length

/-- The scope `{ let y = 7; }` used by the C9 witness. -/
def c9wSc : NodeScope :=
  .mk (.cons (.letStmt ⟨.ident, 1, some "y"⟩
    (.term (.intLit ⟨.int_lit, 1, some "7"⟩))) .nil)

/-- The entry state used by the C9 witness. -/
def c9wSt : GenState := ⟨[], 2, [⟨"x", 0⟩], [0], 3⟩

/-- The state `gen_scope` produces for `c9wSc` from `c9wSt`. -/
def c9wRes : GenState := (gen_scope c9wSc c9wSt).toOption.getD c9wSt

/-- C10: compiling the empty source succeeds — the tokenizer yields no
tokens, the parser yields a program with no statements without invoking
the error routine, and the assembly is exactly the `_start` prologue, the
default exit-with-0 syscall, and the `print_int` routine. -/
theorem claim_c10_empty_program :
    tokenize "" = .ok [] ∧ runParser [] = .ok ⟨.nil⟩ ∧
      compile "" = .ok [.globalStart, .movRax60, .movRdi0, .syscall,
        .printIntRoutine] :=
  ⟨rfl, rfl, rfl⟩

/-! ## Generator invariants -/

/-- Splitting a successful `Except` bind into its two successful stages. -/
theorem except_bind_ok {α β ε : Type} {x : Except ε α} {f : α → Except ε β}
    {b : β} (h : (x >>= f) = .ok b) : ∃ a, x = .ok a ∧ f a = .ok b := by
  cases x with
  | error e => exact absurd h (by simp [Bind.bind, Except.bind])
  | ok a => exact ⟨a, rfl, by simpa [Bind.bind, Except.bind] using h⟩

theorem exprEff_emit (i : Instr) (st : GenState) : ExprEff st (GenState.push (.reg "rax") (emit i st)) := by
  refine ⟨rfl, rfl, rfl⟩

theorem exprEff_arith (i : Instr) {st st1 st2 : GenState}
    (e1 : ExprEff st st1) (e2 : ExprEff st1 st2) :
    ExprEff st (GenState.push (.reg "rax")
      (emit i (GenState.pop "rbx" (GenState.pop "rax" st2)))) := by
  obtain ⟨hs1, hv1, hc1⟩ := e1
  obtain ⟨hs2, hv2, hc2⟩ := e2
  refine ⟨?_, ?_, ?_⟩ <;>
    simp [GenState.push, emit, GenState.pop, hs1, hs2, hv1, hv2, hc1, hc2]

theorem exprEff_cmp (i : Instr) {st st1 st2 : GenState}
    (e1 : ExprEff st st1) (e2 : ExprEff st1 st2) :
    ExprEff st (GenState.push (.reg "rax")
      (emit .movzxRaxAl (emit i (emit .cmpRaxRbx
        (GenState.pop "rax" (GenState.pop "rbx" st2)))))) := by
  obtain ⟨hs1, hv1, hc1⟩ := e1
  obtain ⟨hs2, hv2, hc2⟩ := e2
  refine ⟨?_, ?_, ?_⟩ <;>
    simp [GenState.push, emit, GenState.pop, hs1, hs2, hv1, hv2, hc1, hc2]

mutual

theorem gen_term_eff (t : NodeTerm) :
    ∀ st st', gen_term t st = .ok st' → ExprEff st st' := by
  cases t with
  | intLit tok =>
      intro st st' h
      simp only [gen_term] at h
      cases h
      exact ⟨rfl, rfl, rfl⟩
  | ident tok =>
      intro st st' h
      simp only [gen_term] at h
      cases hf : st.vars.find? (fun v => v.name == tokVal tok) with
      | none => rw [hf] at h; cases h
      | some v =>
          rw [hf] at h
          cases h
          exact ⟨rfl, rfl, rfl⟩
  | neg t0 =>
      intro st st' h
      simp only [gen_term] at h
      obtain ⟨st1, h1, h2⟩ := except_bind_ok h
      cases h2
      obtain ⟨hs, hv, hsc⟩ := gen_term_eff t0 st st1 h1
      exact ⟨by simp [GenState.push, emit, GenState.pop, hs], hv, hsc⟩
  | paren e =>
      intro st st' h
      simp only [gen_term] at h
      exact gen_expr_eff e st st' h

theorem gen_bin_expr_eff (b : NodeBinExpr) :
    ∀ st st', gen_bin_expr b st = .ok st' → ExprEff st st' := by
  cases b with
  | mk op lhs rhs =>
      intro st st' h
      cases op with
      | sub =>
          simp only [gen_bin_expr] at h
          obtain ⟨st1, h1, h2⟩ := except_bind_ok h
          obtain ⟨st2, h3, h4⟩ := except_bind_ok h2
          cases h4
          exact exprEff_arith _ (gen_expr_eff rhs st st1 h1) (gen_expr_eff lhs st1 st2 h3)
      | add =>
          simp only [gen_bin_expr] at h
          obtain ⟨st1, h1, h2⟩ := except_bind_ok h
          obtain ⟨st2, h3, h4⟩ := except_bind_ok h2
          cases h4
          exact exprEff_arith _ (gen_expr_eff rhs st st1 h1) (gen_expr_eff lhs st1 st2 h3)
      | multi =>
          simp only [gen_bin_expr] at h
          obtain ⟨st1, h1, h2⟩ := except_bind_ok h
          obtain ⟨st2, h3, h4⟩ := except_bind_ok h2
          cases h4
          exact exprEff_arith _ (gen_expr_eff rhs st st1 h1) (gen_expr_eff lhs st1 st2 h3)
      | div =>
          simp only [gen_bin_expr] at h
          obtain ⟨st1, h1, h2⟩ := except_bind_ok h
          obtain ⟨st2, h3, h4⟩ := except_bind_ok h2
          cases h4
          exact exprEff_arith _ (gen_expr_eff rhs st st1 h1) (gen_expr_eff lhs st1 st2 h3)
      | gt =>
          simp only [gen_bin_expr] at h
          obtain ⟨st1, h1, h2⟩ := except_bind_ok h
          obtain ⟨st2, h3, h4⟩ := except_bind_ok h2
          cases h4
          exact exprEff_cmp _ (gen_expr_eff lhs st st1 h1) (gen_expr_eff rhs st1 st2 h3)
      | ge =>
          simp only [gen_bin_expr] at h
          obtain ⟨st1, h1, h2⟩ := except_bind_ok h
          obtain ⟨st2, h3, h4⟩ := except_bind_ok h2
          cases h4
          exact exprEff_cmp _ (gen_expr_eff lhs st st1 h1) (gen_expr_eff rhs st1 st2 h3)
      | lt =>
          simp only [gen_bin_expr] at h
          obtain ⟨st1, h1, h2⟩ := except_bind_ok h
          obtain ⟨st2, h3, h4⟩ := except_bind_ok h2
          cases h4
          exact exprEff_cmp _ (gen_expr_eff lhs st st1 h1) (gen_expr_eff rhs st1 st2 h3)
      | le =>
          simp only [gen_bin_expr] at h
          obtain ⟨st1, h1, h2⟩ := except_bind_ok h
          obtain ⟨st2, h3, h4⟩ := except_bind_ok h2
          cases h4
          exact exprEff_cmp _ (gen_expr_eff lhs st st1 h1) (gen_expr_eff rhs st1 st2 h3)
      | eqEq =>
          simp only [gen_bin_expr] at h
          obtain ⟨st1, h1, h2⟩ := except_bind_ok h
          obtain ⟨st2, h3, h4⟩ := except_bind_ok h2
          cases h4
          exact exprEff_cmp _ (gen_expr_eff lhs st st1 h1) (gen_expr_eff rhs st1 st2 h3)

theorem gen_expr_eff (e : NodeExpr) :
    ∀ st st', gen_expr e st = .ok st' → ExprEff st st' := by
  cases e with
  | term t =>
      intro st st' h
      simp only [gen_expr] at h
      exact gen_term_eff t st st' h
  | binExpr b =>
      intro st st' h
      simp only [gen_expr] at h
      exact gen_bin_expr_eff b st st' h

end

theorem stmtEff_comp {m n : Nat} {st st1 st2 : GenState}
    (e1 : StmtEff m st st1) (e2 : StmtEff n st1 st2) :
    StmtEff (m + n) st st2 := by
  obtain ⟨d1, hv1, hl1, hs1, hc1⟩ := e1
  obtain ⟨d2, hv2, hl2, hs2, hc2⟩ := e2
  exact ⟨d1 ++ d2, by simp [hv2, hv1], by simp [hl1, hl2],
    by omega, by rw [hc2, hc1]⟩

theorem stmtEff_of_exprEff {st st1 st2 : GenState} (e : ExprEff st st1)
    (hv : st2.vars = st1.vars) (hs : st2.stack_size = st1.stack_size - 1)
    (hc : st2.scopes = st1.scopes) : StmtEff 0 st st2 := by
  obtain ⟨hs1, hv1, hc1⟩ := e
  exact ⟨[], by simp [hv, hv1], rfl, by omega, by rw [hc, hc1]⟩

/-- What `end_scope` does to a state reached from `begin_scope st` by code
that appended `Δ` to the table, grew the stack by `Δ.length`, and restored
the scope stack of `begin_scope st`. -/
theorem end_scope_spec {st stB : GenState} {Δ : List Var}
    (hv : stB.vars = st.vars ++ Δ)
    (hs : stB.stack_size = st.stack_size + Δ.length)
    (hc : stB.scopes = st.scopes ++ [st.vars.length]) :
    end_scope stB =
      { stB with
        output := stB.output ++ [.addRsp (Δ.length * 8)],
        stack_size := st.stack_size,
        vars := st.vars,
        scopes := st.scopes } := by
  have hlast : stB.scopes.getLast? = some st.vars.length := by
    rw [hc]; exact List.getLast?_concat _
  have hpop : stB.vars.length - st.vars.length = Δ.length := by
    simp [hv]
  unfold end_scope
  rw [hlast]
  have htake : stB.vars.take st.vars.length = st.vars := by
    rw [hv]; exact List.take_left _ _
  have hdrop : stB.scopes.dropLast = st.scopes := by
    rw [hc]; exact List.dropLast_concat
  simp only [hpop, htake, hdrop]
  have : stB.stack_size - Δ.length = st.stack_size := by omega
  rw [this]

theorem emit_vars (i : Instr) (st : GenState) : (emit i st).vars = st.vars := rfl

theorem emit_stack (i : Instr) (st : GenState) :
    (emit i st).stack_size = st.stack_size := rfl

theorem emit_scopes (i : Instr) (st : GenState) : (emit i st).scopes = st.scopes := rfl

theorem pop_vars (r : String) (st : GenState) : (GenState.pop r st).vars = st.vars := rfl

theorem pop_stack (r : String) (st : GenState) :
    (GenState.pop r st).stack_size = st.stack_size - 1 := rfl

theorem pop_scopes (r : String) (st : GenState) :
    (GenState.pop r st).scopes = st.scopes := rfl

theorem create_label_vars (st : GenState) : (create_label st).2.vars = st.vars := rfl

theorem create_label_stack (st : GenState) :
    (create_label st).2.stack_size = st.stack_size := rfl

theorem create_label_scopes (st : GenState) :
    (create_label st).2.scopes = st.scopes := rfl

theorem begin_scope_vars (st : GenState) : (begin_scope st).vars = st.vars := rfl

theorem begin_scope_stack (st : GenState) :
    (begin_scope st).stack_size = st.stack_size := rfl

theorem begin_scope_scopes (st : GenState) :
    (begin_scope st).scopes = st.scopes ++ [st.vars.length] := rfl

/-- A `StmtEff 0` step through states that share table, stack and scopes. -/
theorem stmtEff_zero {st st' : GenState} (hv : st'.vars = st.vars)
    (hs : st'.stack_size = st.stack_size) (hc : st'.scopes = st.scopes) :
    StmtEff 0 st st' :=
  ⟨[], by simp [hv], rfl, by simp [hs], hc⟩

/-- Unpacking a `StmtEff 0` into plain field equations. -/
theorem stmtEff_zero_fields {st st' : GenState} (e : StmtEff 0 st st') :
    st'.vars = st.vars ∧ st'.stack_size = st.stack_size ∧ st'.scopes = st.scopes := by
  obtain ⟨Δ, hv, hl, hs, hc⟩ := e
  rw [List.length_eq_zero] at hl
  subst hl
  exact ⟨by simpa using hv, by simpa using hs, hc⟩

/-- Case lemma: `exit(e)` statements leave the frame unchanged. -/
theorem eff_exit (e : NodeExpr) :
    ∀ st st', gen_stmt (.exitStmt e) st = .ok st' → StmtEff 0 st st' := by
  intro st st' h
  simp only [gen_stmt] at h
  obtain ⟨st1, h1, h2⟩ := except_bind_ok h
  cases h2
  exact stmtEff_of_exprEff (gen_expr_eff e st st1 h1) rfl rfl rfl

/-- Case lemma: `let x = e` adds one variable and one stack slot. -/
theorem eff_let (identTok : Token) (e : NodeExpr) :
    ∀ st st', gen_stmt (.letStmt identTok e) st = .ok st' → StmtEff 1 st st' := by
  intro st st' h
  simp only [gen_stmt] at h
  cases hf : st.vars.find? (fun v => v.name == tokVal identTok) with
  | some v => rw [hf] at h; cases h
  | none =>
      rw [hf] at h
      obtain ⟨hs, hv, hc⟩ := gen_expr_eff _ _ _ h
      exact ⟨[⟨tokVal identTok, st.stack_size⟩], by simpa using hv, rfl,
        by simpa using hs, by simpa using hc⟩

/-- Case lemma: assignment leaves the frame unchanged. -/
theorem eff_assign (identTok : Token) (e : NodeExpr) :
    ∀ st st', gen_stmt (.assign identTok e) st = .ok st' → StmtEff 0 st st' := by
  intro st st' h
  simp only [gen_stmt] at h
  cases hf : st.vars.find? (fun v => v.name == tokVal identTok) with
  | none => rw [hf] at h; cases h
  | some v =>
      rw [hf] at h
      obtain ⟨st1, h1, h2⟩ := except_bind_ok h
      cases h2
      exact stmtEff_of_exprEff (gen_expr_eff e st st1 h1) rfl rfl rfl

/-- Case lemma: `print(e)` leaves the frame unchanged. -/
theorem eff_print (e : NodeExpr) :
    ∀ st st', gen_stmt (.print e) st = .ok st' → StmtEff 0 st st' := by
  intro st st' h
  simp only [gen_stmt] at h
  obtain ⟨st1, h1, h2⟩ := except_bind_ok h
  cases h2
  exact stmtEff_of_exprEff (gen_expr_eff e st st1 h1) rfl rfl rfl

/-- Case lemma: a nested-scope statement leaves the frame unchanged. -/
theorem eff_scope_stmt (sc : NodeScope)
    (IH : ∀ st st', gen_scope sc st = .ok st' → StmtEff 0 st st') :
    ∀ st st', gen_stmt (.scope sc) st = .ok st' → StmtEff 0 st st' := by
  intro st st' h
  simp only [gen_stmt] at h
  obtain ⟨st1, h1, h2⟩ := except_bind_ok h
  cases h2
  obtain ⟨hv, hs, hc⟩ := stmtEff_zero_fields (IH _ _ h1)
  simp only [emit] at hv hs hc
  exact stmtEff_zero (by simpa using hv) (by simpa using hs) (by simpa using hc)

/-- Case lemma: a predicate-free `if` leaves the frame unchanged. -/
theorem eff_if_noPred (e : NodeExpr) (sc : NodeScope)
    (IHsc : ∀ st st', gen_scope sc st = .ok st' → StmtEff 0 st st') :
    ∀ st st', gen_stmt (.ifStmt e sc .noPred) st = .ok st' → StmtEff 0 st st' := by
  intro st st' h
  simp only [gen_stmt] at h
  obtain ⟨st1, h1, h2⟩ := except_bind_ok h
  obtain ⟨hs1, hv1, hc1⟩ := gen_expr_eff e st st1 h1
  obtain ⟨st5, h5, h6⟩ := except_bind_ok h2
  cases h6
  obtain ⟨hv5, hs5, hc5⟩ := stmtEff_zero_fields (IHsc _ _ h5)
  simp only [emit, create_label, GenState.pop] at hv5 hs5 hc5
  refine stmtEff_zero ?_ ?_ ?_ <;>
    simp [emit, hv5, hs5, hc5, hv1, hs1, hc1]

/-- Case lemma: an `if` with an `elif`/`else` chain leaves the frame
unchanged. -/
theorem eff_if_somePred (e : NodeExpr) (sc : NodeScope) (p : NodeIfPred)
    (IHsc : ∀ st st', gen_scope sc st = .ok st' → StmtEff 0 st st')
    (IHp : ∀ lbl st st', gen_if_pred p lbl st = .ok st' → StmtEff 0 st st') :
    ∀ st st', gen_stmt (.ifStmt e sc (.somePred p)) st = .ok st' →
      StmtEff 0 st st' := by
  intro st st' h
  simp only [gen_stmt] at h
  obtain ⟨st1, h1, h2⟩ := except_bind_ok h
  obtain ⟨hs1, hv1, hc1⟩ := gen_expr_eff e st st1 h1
  obtain ⟨st5, h5, h6⟩ := except_bind_ok h2
  obtain ⟨st8, h8, h9⟩ := except_bind_ok h6
  cases h9
  obtain ⟨hv5, hs5, hc5⟩ := stmtEff_zero_fields (IHsc _ _ h5)
  obtain ⟨hv8, hs8, hc8⟩ := stmtEff_zero_fields (IHp _ _ _ h8)
  simp only [emit, create_label, GenState.pop] at hv5 hs5 hc5 hv8 hs8 hc8
  refine stmtEff_zero ?_ ?_ ?_ <;>
    simp [emit, hv8, hs8, hc8, hv5, hs5, hc5, hv1, hs1, hc1]

/-- Case lemma: a scope restores table, stack and scope stack. -/
theorem eff_scope (stmts : NodeStmtList)
    (IH : ∀ st st', gen_stmts stmts st = .ok st' →
      StmtEff (letCountList stmts) st st') :
    ∀ st st', gen_scope (.mk stmts) st = .ok st' → StmtEff 0 st st' := by
  intro st st' h
  simp only [gen_scope] at h
  obtain ⟨stB, hB, h2⟩ := except_bind_ok h
  cases h2
  obtain ⟨Δ, hv, hl, hs, hc⟩ := IH _ _ hB
  simp only [begin_scope_vars, begin_scope_stack, begin_scope_scopes] at hv hs hc
  rw [end_scope_spec hv (by rw [hs, hl]) hc]
  exact stmtEff_zero rfl rfl rfl

/-- Case lemma: the empty statement list does nothing. -/
theorem eff_stmts_nil :
    ∀ st st', gen_stmts .nil st = .ok st' → StmtEff 0 st st' := by
  intro st st' h
  simp only [gen_stmts] at h
  cases h
  exact stmtEff_zero rfl rfl rfl

/-- Case lemma: statement sequencing composes frame effects. -/
theorem eff_stmts_cons (s : NodeStmt) (rest : NodeStmtList)
    (IH1 : ∀ st st', gen_stmt s st = .ok st' → StmtEff (letCount s) st st')
    (IH2 : ∀ st st', gen_stmts rest st = .ok st' →
      StmtEff (letCountList rest) st st') :
    ∀ st st', gen_stmts (.cons s rest) st = .ok st' →
      StmtEff (letCount s + letCountList rest) st st' := by
  intro st st' h
  simp only [gen_stmts] at h
  obtain ⟨st1, h1, h2⟩ := except_bind_ok h
  exact stmtEff_comp (IH1 st st1 h1) (IH2 st1 st' h2)

/-- Case lemma: a final `elif` clause leaves the frame unchanged. -/
theorem eff_elif_noPred (e : NodeExpr) (sc : NodeScope) (lbl : String) :
    ∀ st st', (∀ st st', gen_scope sc st = .ok st' → StmtEff 0 st st') →
      gen_if_pred (.elifP e sc .noPred) lbl st = .ok st' → StmtEff 0 st st' := by
  intro st st' IHsc h
  simp only [gen_if_pred] at h
  obtain ⟨st1, h1, h2⟩ := except_bind_ok h
  obtain ⟨hs1, hv1, hc1⟩ := gen_expr_eff e _ st1 h1
  obtain ⟨st5, h5, h6⟩ := except_bind_ok h2
  cases h6
  obtain ⟨hv5, hs5, hc5⟩ := stmtEff_zero_fields (IHsc _ _ h5)
  simp only [emit, create_label, GenState.pop] at hv5 hs5 hc5 hs1 hv1 hc1
  refine stmtEff_zero ?_ ?_ ?_ <;>
    simp [emit, hv5, hs5, hc5, hv1, hs1, hc1]

/-- Case lemma: an `elif` clause with a continuation leaves the frame
unchanged. -/
theorem eff_elif_somePred (e : NodeExpr) (sc : NodeScope) (p2 : NodeIfPred)
    (lbl : String)
    (IHsc : ∀ st st', gen_scope sc st = .ok st' → StmtEff 0 st st')
    (IHp : ∀ lbl st st', gen_if_pred p2 lbl st = .ok st' → StmtEff 0 st st') :
    ∀ st st', gen_if_pred (.elifP e sc (.somePred p2)) lbl st = .ok st' →
      StmtEff 0 st st' := by
  intro st st' h
  simp only [gen_if_pred] at h
  obtain ⟨st1, h1, h2⟩ := except_bind_ok h
  obtain ⟨hs1, hv1, hc1⟩ := gen_expr_eff e _ st1 h1
  obtain ⟨st5, h5, h6⟩ := except_bind_ok h2
  obtain ⟨hv5, hs5, hc5⟩ := stmtEff_zero_fields (IHsc _ _ h5)
  obtain ⟨hv8, hs8, hc8⟩ := stmtEff_zero_fields (IHp _ _ _ h6)
  simp only [emit, create_label, GenState.pop] at hv5 hs5 hc5 hv8 hs8 hc8 hs1 hv1 hc1
  refine stmtEff_zero ?_ ?_ ?_ <;>
    simp [emit, hv8, hs8, hc8, hv5, hs5, hc5, hv1, hs1, hc1]

mutual

theorem gen_stmt_eff (s : NodeStmt) :
    ∀ st st', gen_stmt s st = .ok st' → StmtEff (letCount s) st st' := by
  cases s with
  | exitStmt e => exact eff_exit e
  | letStmt identTok e => exact eff_let identTok e
  | assign identTok e => exact eff_assign identTok e
  | print e => exact eff_print e
  | scope sc => exact eff_scope_stmt sc (gen_scope_eff sc)
  | ifStmt e sc pred =>
      cases pred with
      | noPred => exact eff_if_noPred e sc (gen_scope_eff sc)
      | somePred p =>
          exact eff_if_somePred e sc p (gen_scope_eff sc) (gen_if_pred_eff p)
termination_by sizeOf s

theorem gen_scope_eff (sc : NodeScope) :
    ∀ st st', gen_scope sc st = .ok st' → StmtEff 0 st st' := by
  cases sc with
  | mk stmts => exact eff_scope stmts (gen_stmts_eff stmts)
termination_by sizeOf sc

theorem gen_stmts_eff (l : NodeStmtList) :
    ∀ st st', gen_stmts l st = .ok st' → StmtEff (letCountList l) st st' := by
  cases l with
  | nil => exact eff_stmts_nil
  | cons s rest =>
      exact eff_stmts_cons s rest (gen_stmt_eff s) (gen_stmts_eff rest)
termination_by sizeOf l

theorem gen_if_pred_eff (p : NodeIfPred) :
    ∀ lbl st st', gen_if_pred p lbl st = .ok st' → StmtEff 0 st st' := by
  cases p with
  | elseP sc =>
      intro lbl st st' h
      simp only [gen_if_pred] at h
      exact gen_scope_eff sc st st' h
  | elifP e sc pred =>
      cases pred with
      | noPred =>
          intro lbl st st' h
          exact eff_elif_noPred e sc lbl st st' (gen_scope_eff sc) h
      | somePred p2 =>
          intro lbl
          exact eff_elif_somePred e sc p2 lbl (gen_scope_eff sc)
            (gen_if_pred_eff p2)
termination_by sizeOf p

end

/-- Rewriting a successful stage through a bind. -/
theorem bind_ok_eq {α β ε : Type} {x : Except ε α} {a : α}
    {f : α → Except ε β} (h : x = .ok a) : (x >>= f) = f a := by
  rw [h]; rfl

/-- Case lemma: integer literals always generate. -/
theorem ok_intLit (tok : Token) :
    ∀ st : GenState, termIdentsOk (.intLit tok) st.vars = true →
      ∃ st', gen_term (.intLit tok) st = .ok st' ∧ ExprEff st st' := by
  intro st _
  exact ⟨GenState.push (.reg "rax") (emit (.movRaxLit (tokVal tok)) st),
    by simp only [gen_term], rfl, rfl, rfl⟩

/-- Case lemma: declared identifiers generate. -/
theorem ok_ident (tok : Token) :
    ∀ st : GenState, termIdentsOk (.ident tok) st.vars = true →
      ∃ st', gen_term (.ident tok) st = .ok st' ∧ ExprEff st st' := by
  intro st hOk
  simp only [termIdentsOk, Option.isSome_iff_exists] at hOk
  obtain ⟨v, hv⟩ := hOk
  refine ⟨GenState.push (.qwordRsp ((st.stack_size - v.stack_loc - 1) * 8)) st,
    ?_, rfl, rfl, rfl⟩
  simp only [gen_term]
  rw [hv]

/-- Case lemma: negation generates when its operand does. -/
theorem ok_neg (t0 : NodeTerm)
    (IH : ∀ st : GenState, termIdentsOk t0 st.vars = true →
      ∃ st', gen_term t0 st = .ok st' ∧ ExprEff st st') :
    ∀ st : GenState, termIdentsOk (.neg t0) st.vars = true →
      ∃ st', gen_term (.neg t0) st = .ok st' ∧ ExprEff st st' := by
  intro st hOk
  obtain ⟨st1, e1, hs1, hv1, hc1⟩ := IH st (by simpa [termIdentsOk] using hOk)
  refine ⟨GenState.push (.reg "rax") (emit .negRax (GenState.pop "rax" st1)),
    ?_, ?_, ?_, ?_⟩
  · simp only [gen_term]
    rw [bind_ok_eq e1]
  · simp [GenState.push, emit, GenState.pop, hs1]
  · simp [GenState.push, emit, GenState.pop, hv1]
  · simp [GenState.push, emit, GenState.pop, hc1]

/-- Case lemma: parenthesized expressions delegate to the inner one. -/
theorem ok_paren (e : NodeExpr)
    (IH : ∀ st : GenState, exprIdentsOk e st.vars = true →
      ∃ st', gen_expr e st = .ok st' ∧ ExprEff st st') :
    ∀ st : GenState, termIdentsOk (.paren e) st.vars = true →
      ∃ st', gen_term (.paren e) st = .ok st' ∧ ExprEff st st' := by
  intro st hOk
  obtain ⟨st', e1, eff⟩ := IH st (by simpa [termIdentsOk] using hOk)
  exact ⟨st', by simp only [gen_term]; exact e1, eff⟩

/-- Case lemma: binary expressions generate when both operands do. -/
theorem ok_bin (op : BinOp) (lhs rhs : NodeExpr)
    (IHl : ∀ st : GenState, exprIdentsOk lhs st.vars = true →
      ∃ st', gen_expr lhs st = .ok st' ∧ ExprEff st st')
    (IHr : ∀ st : GenState, exprIdentsOk rhs st.vars = true →
      ∃ st', gen_expr rhs st = .ok st' ∧ ExprEff st st') :
    ∀ st : GenState, binIdentsOk (.mk op lhs rhs) st.vars = true →
      ∃ st', gen_bin_expr (.mk op lhs rhs) st = .ok st' ∧ ExprEff st st' := by
  intro st hOk
  simp only [binIdentsOk, Bool.and_eq_true] at hOk
  obtain ⟨hl, hr⟩ := hOk
  cases op with
  | sub =>
      obtain ⟨st1, e1, f1⟩ := IHr st hr
      obtain ⟨st2, e2, f2⟩ := IHl st1 (by rw [f1.2.1]; exact hl)
      refine ⟨_, ?_, exprEff_arith Instr.subRaxRbx f1 f2⟩
      simp only [gen_bin_expr]
      rw [bind_ok_eq e1, bind_ok_eq e2]
  | add =>
      obtain ⟨st1, e1, f1⟩ := IHr st hr
      obtain ⟨st2, e2, f2⟩ := IHl st1 (by rw [f1.2.1]; exact hl)
      refine ⟨_, ?_, exprEff_arith Instr.addRaxRbx f1 f2⟩
      simp only [gen_bin_expr]
      rw [bind_ok_eq e1, bind_ok_eq e2]
  | multi =>
      obtain ⟨st1, e1, f1⟩ := IHr st hr
      obtain ⟨st2, e2, f2⟩ := IHl st1 (by rw [f1.2.1]; exact hl)
      refine ⟨_, ?_, exprEff_arith Instr.mulRbx f1 f2⟩
      simp only [gen_bin_expr]
      rw [bind_ok_eq e1, bind_ok_eq e2]
  | div =>
      obtain ⟨st1, e1, f1⟩ := IHr st hr
      obtain ⟨st2, e2, f2⟩ := IHl st1 (by rw [f1.2.1]; exact hl)
      refine ⟨_, ?_, exprEff_arith Instr.divRbx f1 f2⟩
      simp only [gen_bin_expr]
      rw [bind_ok_eq e1, bind_ok_eq e2]
  | gt =>
      obtain ⟨st1, e1, f1⟩ := IHl st hl
      obtain ⟨st2, e2, f2⟩ := IHr st1 (by rw [f1.2.1]; exact hr)
      refine ⟨_, ?_, exprEff_cmp Instr.setg f1 f2⟩
      simp only [gen_bin_expr]
      rw [bind_ok_eq e1, bind_ok_eq e2]
  | ge =>
      obtain ⟨st1, e1, f1⟩ := IHl st hl
      obtain ⟨st2, e2, f2⟩ := IHr st1 (by rw [f1.2.1]; exact hr)
      refine ⟨_, ?_, exprEff_cmp Instr.setge f1 f2⟩
      simp only [gen_bin_expr]
      rw [bind_ok_eq e1, bind_ok_eq e2]
  | lt =>
      obtain ⟨st1, e1, f1⟩ := IHl st hl
      obtain ⟨st2, e2, f2⟩ := IHr st1 (by rw [f1.2.1]; exact hr)
      refine ⟨_, ?_, exprEff_cmp Instr.setl f1 f2⟩
      simp only [gen_bin_expr]
      rw [bind_ok_eq e1, bind_ok_eq e2]
  | le =>
      obtain ⟨st1, e1, f1⟩ := IHl st hl
      obtain ⟨st2, e2, f2⟩ := IHr st1 (by rw [f1.2.1]; exact hr)
      refine ⟨_, ?_, exprEff_cmp Instr.setle f1 f2⟩
      simp only [gen_bin_expr]
      rw [bind_ok_eq e1, bind_ok_eq e2]
  | eqEq =>
      obtain ⟨st1, e1, f1⟩ := IHl st hl
      obtain ⟨st2, e2, f2⟩ := IHr st1 (by rw [f1.2.1]; exact hr)
      refine ⟨_, ?_, exprEff_cmp Instr.sete f1 f2⟩
      simp only [gen_bin_expr]
      rw [bind_ok_eq e1, bind_ok_eq e2]

mutual

theorem gen_term_ok (t : NodeTerm) :
    ∀ st : GenState, termIdentsOk t st.vars = true →
      ∃ st', gen_term t st = .ok st' ∧ ExprEff st st' := by
  cases t with
  | intLit tok => exact ok_intLit tok
  | ident tok => exact ok_ident tok
  | neg t0 => exact ok_neg t0 (gen_term_ok t0)
  | paren e => exact ok_paren e (gen_expr_ok e)
termination_by sizeOf t

theorem gen_bin_expr_ok (b : NodeBinExpr) :
    ∀ st : GenState, binIdentsOk b st.vars = true →
      ∃ st', gen_bin_expr b st = .ok st' ∧ ExprEff st st' := by
  cases b with
  | mk op lhs rhs => exact ok_bin op lhs rhs (gen_expr_ok lhs) (gen_expr_ok rhs)
termination_by sizeOf b

theorem gen_expr_ok (e : NodeExpr) :
    ∀ st : GenState, exprIdentsOk e st.vars = true →
      ∃ st', gen_expr e st = .ok st' ∧ ExprEff st st' := by
  cases e with
  | term t =>
      intro st hOk
      obtain ⟨st', e1, eff⟩ := gen_term_ok t st (by simpa [exprIdentsOk] using hOk)
      exact ⟨st', by simp only [gen_expr]; exact e1, eff⟩
  | binExpr b =>
      intro st hOk
      obtain ⟨st', e1, eff⟩ := gen_bin_expr_ok b st (by simpa [exprIdentsOk] using hOk)
      exact ⟨st', by simp only [gen_expr]; exact e1, eff⟩
termination_by sizeOf e

end

/-! ## The claims -/

/-- C1: for every expression node all of whose identifiers are present in
the variable table, and every starting generator state, `gen_expr` succeeds
and leaves the virtual stack size exactly one greater than before. -/
theorem claim_c1_gen_expr_stack (e : NodeExpr) (st : GenState)
    (h : exprIdentsOk e st.vars = true) :
    ∃ st', gen_expr e st = .ok st' ∧ st'.stack_size = st.stack_size + 1 := by
  obtain ⟨st', e1, hs, _, _⟩ := gen_expr_ok e st h
  exact ⟨st', e1, hs⟩

/-- Witness for C1 at a concrete identifier expression and state. -/
theorem claim_c1_witness :
    ∃ st', gen_expr (.term (.ident ⟨.ident, 1, some "x"⟩))
        (⟨[], 1, [⟨"x", 0⟩], [], 0⟩ : GenState) = .ok st' ∧
      st'.stack_size = 1 + 1 :=
  claim_c1_gen_expr_stack (.term (.ident ⟨.ident, 1, some "x"⟩))
    ⟨[], 1, [⟨"x", 0⟩], [], 0⟩ (by decide)

/-- C2 counterexample: after generating the single top-level statement
`let x = 0;` the virtual stack size is 1, not 0 — the push made for a
top-level `let` is never matched before the epilogue. -/
theorem claim_c2_counterexample :
    stackAfter (gen_stmts c2prog initGenState) = some 1 ∧ (1 : Nat) ≠ 0 :=
  ⟨by rfl, by decide⟩

/-- C2 (amended): after the last top-level statement the virtual stack size
equals the number of top-level `let` declarations (equally, the length of
the variable table); it is 0 exactly when the program declares no top-level
variable. -/
theorem claim_c2_amended_stack (stmts : NodeStmtList) (st' : GenState)
    (h : gen_stmts stmts initGenState = .ok st') :
    st'.stack_size = letCountList stmts ∧ st'.vars.length = letCountList stmts := by
  obtain ⟨Δ, hv, hl, hs, _⟩ := gen_stmts_eff stmts _ _ h
  constructor
  · rw [hs]; simp [initGenState, hl]
  · rw [hv]; simp [initGenState, hl]

/-- Witness for the amended C2 at `let x = 2; exit(x);`. -/
theorem claim_c2_witness :
    c2wState.stack_size = letCountList c2wStmts ∧
      c2wState.vars.length = letCountList c2wStmts :=
  claim_c2_amended_stack c2wStmts c2wState (by rfl)

/-- C3: for the program `if (1) {} elif (1) {}` the generated assembly
contains `jz label2` while `label2:` is never defined — the skip label of a
final `elif` without `else` is referenced but not emitted. -/
theorem claim_c3_missing_label :
    Instr.jz "label2" ∈ c3out ∧ Instr.labelDef "label2" ∉ c3out ∧
      "label2" ∈ referencedLabels c3out ∧ "label2" ∉ definedLabels c3out := by
  refine ⟨by decide, by decide, by decide, by decide⟩

/-- C4 counterexample: compiling `let a = 10; { let a = 1; } exit(a);`
does not succeed. -/
theorem claim_c4_counterexample : (compile c4src).toOption = none := by rfl

/-- C4 (amended): that program is rejected with the semantic error
`Identifier already used: a` — redeclaration is refused even for a
shadowing `let` in an inner scope. -/
theorem claim_c4_rejected :
    compile c4src = .error (.genErr (.alreadyUsed "a")) := by rfl

/-- C5: precedence and associativity: `a + b * c` parses as `a + (b * c)`,
`a * b + c` as `(a * b) + c`, `a - b - c` as `(a - b) - c`, and `-a * b` as
`(-a) * b`, for all identifier terms. -/
theorem claim_c5_precedence (a b c : String) :
    (parse_expr 20 [⟨.ident, 1, some a⟩, ⟨.plus, 1, none⟩, ⟨.ident, 1, some b⟩,
        ⟨.star, 1, none⟩, ⟨.ident, 1, some c⟩] 0 0 =
      .ok (some (.binExpr (.mk .add (.term (.ident ⟨.ident, 1, some a⟩))
        (.binExpr (.mk .multi (.term (.ident ⟨.ident, 1, some b⟩))
          (.term (.ident ⟨.ident, 1, some c⟩)))))), 5)) ∧
    (parse_expr 20 [⟨.ident, 1, some a⟩, ⟨.star, 1, none⟩, ⟨.ident, 1, some b⟩,
        ⟨.plus, 1, none⟩, ⟨.ident, 1, some c⟩] 0 0 =
      .ok (some (.binExpr (.mk .add
        (.binExpr (.mk .multi (.term (.ident ⟨.ident, 1, some a⟩))
          (.term (.ident ⟨.ident, 1, some b⟩))))
        (.term (.ident ⟨.ident, 1, some c⟩)))), 5)) ∧
    (parse_expr 20 [⟨.ident, 1, some a⟩, ⟨.sub, 1, none⟩, ⟨.ident, 1, some b⟩,
        ⟨.sub, 1, none⟩, ⟨.ident, 1, some c⟩] 0 0 =
      .ok (some (.binExpr (.mk .sub
        (.binExpr (.mk .sub (.term (.ident ⟨.ident, 1, some a⟩))
          (.term (.ident ⟨.ident, 1, some b⟩))))
        (.term (.ident ⟨.ident, 1, some c⟩)))), 5)) ∧
    (parse_expr 20 [⟨.sub, 1, none⟩, ⟨.ident, 1, some a⟩, ⟨.star, 1, none⟩,
        ⟨.ident, 1, some b⟩] 0 0 =
      .ok (some (.binExpr (.mk .multi
        (.term (.neg (.ident ⟨.ident, 1, some a⟩)))
        (.term (.ident ⟨.ident, 1, some b⟩)))), 4)) :=
  ⟨rfl, rfl, rfl, rfl⟩

/-- C6: every successful binary-expression generation has the operand
order and instruction tail described by `C6Spec`: `rhs` before `lhs` with
`pop rax; pop rbx` for arithmetic, `lhs` before `rhs` with
`pop rbx; pop rax; cmp; setCC; movzx` for comparisons. -/
theorem claim_c6_binop_emission (op : BinOp) (lhs rhs : NodeExpr)
    (st st' : GenState) (h : gen_bin_expr (.mk op lhs rhs) st = .ok st') :
    C6Spec op lhs rhs st st' := by
  cases op <;>
    · simp only [gen_bin_expr] at h
      obtain ⟨st1, h1, h2⟩ := except_bind_ok h
      obtain ⟨st2, h3, h4⟩ := except_bind_ok h2
      cases h4
      constructor
      all_goals intro i hi
      all_goals simp only [arithInstr, cmpSetInstr, Option.some.injEq] at hi
      all_goals first
        | exact Option.noConfusion hi
        | (subst hi
           exact ⟨st1, st2, h1, h3, by simp [GenState.push, emit, GenState.pop]⟩)

/-- Witness for C6 at the concrete expression `1 + 1`. -/
theorem claim_c6_witness : C6Spec .add c6wExpr c6wExpr c6wSt c6wRes :=
  claim_c6_binop_emission .add c6wExpr c6wExpr c6wSt c6wRes (by rfl)

/-- C7: the token after the block comment in `"/*\n*/x"` carries line 1,
although a newline precedes its start — `tokenize` does not increment the
line counter for newlines inside `/* ... */`. -/
theorem claim_c7_block_comment_line :
    tokenize "/*\n*/x" = .ok [⟨.ident, 1, some "x"⟩] ∧ (1 : Nat) ≠ 2 :=
  ⟨by rfl, by decide⟩

/-- C8: on the input `";"` the parser fails before consuming any token;
`error_expected` then evaluates `peek(-1)`, which is empty, so the process
aborts from `std::bad_optional_access` (the `none` line below) without
printing the `[Parse Error]` message. -/
theorem claim_c8_error_before_consume :
    compile ";" = .error (.parseErr (.expected "statement" none)) := by rfl

/-- C9: generating a scope records the table length on entry and on exit
restores the generator state apart from the emitted text, emitting exactly
one `add rsp, pop_count*8` with `pop_count` the number of variables
declared inside. -/
theorem claim_c9_scope_frame (sc : NodeScope) (st st' : GenState)
    (h : gen_scope sc st = .ok st') : ScopeFrameSpec sc st st' := by
  cases sc with
  | mk stmts =>
      simp only [gen_scope] at h
      obtain ⟨stB, hB, h2⟩ := except_bind_ok h
      cases h2
      obtain ⟨Δ, hv, hl, hs, hc⟩ := gen_stmts_eff stmts _ _ hB
      simp only [begin_scope_vars, begin_scope_stack, begin_scope_scopes] at hv hs hc
      rw [ScopeFrameSpec, end_scope_spec hv (by rw [hs, hl]) hc]
      exact ⟨rfl, rfl, rfl, stB, Δ, hB, hv, by simp [NodeScope.stmts, hl], rfl,
        by simp [NodeScope.stmts, hs, hl]⟩

/-- Witness for C9 at the concrete scope `{ let y = 7; }`. -/
theorem claim_c9_witness : ScopeFrameSpec c9wSc c9wSt c9wRes :=
  claim_c9_scope_frame c9wSc c9wSt c9wRes (by rfl)
